import Mathlib

/-!
Verification of the gopherbot pipeline engine (package bot).

This file gives a shallow embedding, in Lean, of the parts of the engine
that the checked properties talk about:

* the reply-wait manager (replies.go portion: promptWait and the public
  prompt operations with their retry loop);
* pipeline task queueing and execution order (AddTask, runPipeline);
* environment assembly with precedence (runPipeline / runtasks.go);
* run registration with run-ID allocation (registerActive / deregister);
* history retention (the taskHistory update in runPipeline);
* the scheduler's skip rules (scheduleTasks).

Go maps are embedded as association lists or lookup functions, Go's
64-bit int as an Int restricted by an explicit two's-complement wrap
where the code can overflow, and effectful collaborators (the connector,
the brain, callTask dispatch) as explicit oracle parameters.  Each
definition mirrors the control flow of the source function it is named
after.
-/

namespace Gopherbot

/-- RetVal is the enumeration of outcome codes returned to callers
(retval.go of the source; the list of values follows the outcome codes
named in the engine's interface). -/
inductive RetVal where
  | Ok
  | UserNotFound
  | ChannelNotFound
  | AttributeNotFound
  | Interrupted
  | UseDefaultValue
  | ReplyNotMatched
  | MatcherNotFound
  | TimeoutExpired
  | TaskNotFound
  | MissingArguments
  | RetryPrompt
  deriving DecidableEq, Repr

/-- TaskRetVal is the enumeration of task outcome codes; Normal is the
continue sentinel of the pipeline loop, Success the sentinel used by the
authorization and elevation checks. -/
inductive TaskRetVal where
  | Normal
  | Fail
  | MechanismFail
  | ConfigurationError
  | Success
  deriving DecidableEq, Repr

/- ----------------------------------------------------------------- -/
/- Reply-wait manager (replies portion of the source)                -/
/- ----------------------------------------------------------------- -/

/-- replyDisposition mirrors the source enumeration: replied,
replyInterrupted (user started another command), retryPrompt (another
prompt was in progress). -/
inductive replyDisposition where
  | replied
  | replyInterrupted
  | retryPrompt
  deriving DecidableEq, Repr

/-- reply mirrors the struct sent over a replyWaiter channel: whether
the regex matched, the disposition, and the text of the reply. -/
structure reply where
  matched : Bool
  disposition : replyDisposition
  rep : String
  deriving DecidableEq, Repr

/-- replyTimeout is the fixed wait duration, in seconds, raced against
the delivery channel in promptWait (45 * time.Second in the source). -/
def replyTimeout : Nat := 45

/-- Waiters are identified abstractly by a numeral naming their one-shot
delivery channel; the map entry for a matcher is the FIFO list of
waiters, head first, exactly as in the replies map of the source. -/
abbrev waitList := List Nat

/-- timeoutOutcome records what the timeout branch of promptWait does:
the new map entry for the matcher (none means deleted or absent), the
waiter whose channel is sent reply(false, retryPrompt, ""), and whether
the code instead falls through to a blocking read of its own channel
(the lost-race case where the entry is already gone). -/
structure timeoutOutcome where
  entryAfter : Option waitList
  signalled : Option Nat
  fallThrough : Bool
  deriving DecidableEq, Repr

/-- promptWaitTimeout embeds the "case time.After(replyTimeout)" branch
of promptWait: look up the matcher's waitlist; if present, remove the
head (deleting the entry when it was the only waiter), then send
reply(false, retryPrompt, "") to waitlist[0] and return TimeoutExpired;
if absent, fall through to reading the delivery channel directly. -/
def promptWaitTimeout (entry : Option waitList) : timeoutOutcome :=
  match entry with
  | some waitlist =>
      { entryAfter := if waitlist.length = 1 then none else some (waitlist.drop 1)
        signalled := waitlist.head?
        fallThrough := false }
  | none =>
      { entryAfter := none
        signalled := none
        fallThrough := true }

/-- processReply embeds the tail of promptWait, after a reply value has
been received from the delivery channel: replyInterrupted maps to
Interrupted; retryPrompt recurses into the wait (abstracted here as the
oracle recurse); a non-matching reply of "=" maps to UseDefaultValue,
"-" to Interrupted, anything else to ReplyNotMatched, all with an empty
string; a matching reply returns its text with Ok. -/
def processReply (recurse : Unit → String × RetVal) (replied : reply) :
    String × RetVal :=
  if replied.disposition = replyDisposition.replyInterrupted then
    ("", RetVal.Interrupted)
  else if replied.disposition = replyDisposition.retryPrompt then
    recurse ()
  else if replied.matched = false then
    if replied.rep = "=" then ("", RetVal.UseDefaultValue)
    else if replied.rep = "-" then ("", RetVal.Interrupted)
    else ("", RetVal.ReplyNotMatched)
  else
    (replied.rep, RetVal.Ok)

/-- promptRetryLoop embeds the retry loop shared verbatim by the three
public prompt operations (PromptForReply, PromptUserForReply and
PromptUserChannelForReply): call promptInternal up to three times while
it returns RetryPrompt, and if the third call still returns RetryPrompt
return Interrupted instead.  The successive results of the stateful
promptInternal are abstracted as an oracle indexed by attempt number. -/
def promptRetryLoop (oracle : Nat → String × RetVal) : String × RetVal :=
  let r0 := oracle 0
  if r0.2 = RetVal.RetryPrompt then
    let r1 := oracle 1
    if r1.2 = RetVal.RetryPrompt then
      let r2 := oracle 2
      if r2.2 = RetVal.RetryPrompt then (r2.1, RetVal.Interrupted)
      else r2
    else r1
  else r0

/- ----------------------------------------------------------------- -/
/- Task registry and task specs (tasks.go)                           -/
/- ----------------------------------------------------------------- -/

/-- botTask flattens the source's botTask base record together with the
variant fields the verified properties depend on: AdminCommands and the
Verbose flag live on the botPlugin / botJob wrappers in the source and
isPlugin encodes which variant the dynamic type check getTask reports. -/
structure botTask where
  name : String
  isPlugin : Bool
  AdminCommands : List String
  Verbose : Bool
  Disabled : Bool
  reason : String
  deriving DecidableEq, Repr

/-- parameter mirrors the Name/Value pair provided to jobs and plugins
as environment variables. -/
structure parameter where
  Name : String
  Value : String
  deriving DecidableEq, Repr

/-- taskSpec mirrors the queued invocation: task name, plugin command,
positional arguments, and the resolved task (populated in AddTask, left
out for scheduled entries until resolution). -/
structure taskSpec where
  Name : String
  Command : String
  Arguments : List String
  task : Option botTask
  deriving DecidableEq, Repr

/-- getTaskByName embeds the registry lookup: the source consults the
nameMap index of the task list; with unique names this is the first
task carrying the requested name. -/
def getTaskByName (tasks : List botTask) (name : String) : Option botTask :=
  tasks.find? (fun t => t.name = name)

/-- AddTask embeds Robot.AddTask: resolve the name (TaskNotFound when
missing); for a plugin require a non-empty command as the first of
cmdargs (MissingArguments otherwise); for a job force command "run"
with no arguments; on success append exactly one taskSpec to the
pipeline's pending queue and return Ok. -/
def AddTask (tasks : List botTask) (nextTasks : List taskSpec)
    (name : String) (cmdargs : List String) : RetVal × List taskSpec :=
  match getTaskByName tasks name with
  | none => (RetVal.TaskNotFound, nextTasks)
  | some t =>
    if t.isPlugin then
      match cmdargs with
      | [] => (RetVal.MissingArguments, nextTasks)
      | c :: rest =>
        if c = "" then (RetVal.MissingArguments, nextTasks)
        else (RetVal.Ok, nextTasks ++ [⟨name, c, rest, some t⟩])
    else
      (RetVal.Ok, nextTasks ++ [⟨name, "run", [], some t⟩])

/- ----------------------------------------------------------------- -/
/- Environment assembly (runPipeline, runtasks portion)              -/
/- ----------------------------------------------------------------- -/

/-- envPassThrough is the fixed allow-list of host environment
variables passed through to pipelines. -/
def envPassThrough : List String := ["HOME", "HOSTNAME", "LANG", "PATH", "USER"]

/-- Environments are the bot.environment map: a partial lookup from
variable name to value. -/
abbrev envMap := String → Option String

/-- envSet is plain Go map assignment on the environment. -/
def envSet (env : envMap) (k v : String) : envMap :=
  fun x => if x = k then some v else env x

/-- fillIfAbsent embeds the existence-checked assignment used for every
layer of the environment setup: a key already present is left alone, a
missing key is filled. -/
def fillIfAbsent (env : envMap) (k v : String) : envMap :=
  if (env k).isSome then env else envSet env k v

/-- applyLayer folds one precedence layer of parameters over the
environment, filling only the gaps, in the order the source ranges over
them. -/
def applyLayer (env : envMap) (layer : List parameter) : envMap :=
  layer.foldl (fun e p => fillIfAbsent e p.Name p.Value) env

/-- pipelineEnvironment embeds the environment-setup block of
runPipeline: starting from the dynamically pre-set environment of the
run context, fill gaps from the job's fixed Parameters (jobs only),
then from the namespace's stored parameters checked out of the brain,
then from the fixed pass-through allow-list of host variables. -/
def pipelineEnvironment (isJob : Bool) (jobParameters : List parameter)
    (storedEnv : List parameter) (hostEnv : String → String)
    (env : envMap) : envMap :=
  applyLayer
    (applyLayer (if isJob then applyLayer env jobParameters else env) storedEnv)
    (envPassThrough.map (fun p => ⟨p, hostEnv p⟩))

/- ----------------------------------------------------------------- -/
/- Pipeline executor loop (runPipeline)                              -/
/- ----------------------------------------------------------------- -/

/-- pipelineType mirrors the enumeration of what started a pipeline. -/
inductive pipelineType where
  | plugCommand
  | plugMessage
  | catchAll
  | jobTrigger
  | scheduled
  | runJob
  deriving DecidableEq, Repr

/-- checkAdmin embeds Robot.CheckAdmin: scan the configured adminUsers
list for the calling user. -/
def checkAdmin (adminUsers : List String) (user : String) : Bool :=
  adminUsers.contains user

/-- adminDenialMsg is the single denial reply sent when an
admin-restricted command is invoked by a non-administrator. -/
def adminDenialMsg : String :=
  "Sorry, that command is only available to bot administrators"

/-- PipeConfig carries the per-run data the loop branches on: the
configured administrators, the acting user, the interactive flag, and
the bypass flag set for scheduled or system-originated runs. -/
structure PipeConfig where
  adminUsers : List String
  user : String
  interactive : Bool
  bypassSecurityChecks : Bool
  deriving Repr

/-- TaskOracle abstracts the collaborators the loop calls into:
callTask dispatches a task and reports the error string, the outcome,
and the taskSpecs the task appended to the pipeline with AddTask while
it ran; checkAuthorization and checkElevation are the policy checks,
elevation also reporting whether it was required (and hence granted for
the rest of the run). -/
structure TaskOracle where
  callTask : botTask → String → List String → String × TaskRetVal × List taskSpec
  checkAuthorization : botTask → String → TaskRetVal
  checkElevation : botTask → String → TaskRetVal × Bool

/-- securityGate embeds the authorization and elevation block of the
loop: skipped entirely when the run bypasses security; authorization
failure or elevation failure halt the run; a required elevation that
succeeds marks the run elevated. Returns none on failure, otherwise the
new elevated flag. -/
def securityGate (cfg : PipeConfig) (orc : TaskOracle) (t : botTask)
    (command : String) (elevated : Bool) : Option Bool :=
  if cfg.bypassSecurityChecks then some elevated
  else if orc.checkAuthorization t command ≠ TaskRetVal.Success then none
  else if elevated then some elevated
  else
    let er := orc.checkElevation t command
    if er.1 ≠ TaskRetVal.Success then none
    else if er.2 then some true else some elevated

/-- gateStep is the outcome of the admin gate at the top of one loop
iteration: the run proceeds, the command is denied, or the gate
dereferences a nil plugin and the goroutine panics. -/
inductive gateStep where
  | passed
  | denied
  | panicked
  deriving DecidableEq, Repr

/-- adminGate embeds the admin-restriction block at the top of the
pipeline loop.  In the source, the dequeue at the bottom of the loop
re-resolves the task with a short variable declaration inside the if
block, which shadows the function-scoped plugin variable; the gate
therefore always reads plugin0, the plugin of the task that started
the pipeline, while isPlugin does track the current task.  When the
current task is a plugin but the pipeline was started by a job,
plugin0 is nil and evaluating len(plugin.AdminCommands) panics.
Otherwise the command is denied when the initial plugin's AdminCommands
list is non-empty, contains the command, and the user is not an
administrator. -/
def adminGate (cfg : PipeConfig) (plugin0 : Option botTask)
    (isPlugin : Bool) (command : String) : gateStep :=
  if isPlugin then
    match plugin0 with
    | none => gateStep.panicked
    | some plugin =>
      if !plugin.AdminCommands.isEmpty then
        if plugin.AdminCommands.contains command
            && !checkAdmin cfg.adminUsers cfg.user then
          gateStep.denied
        else gateStep.passed
      else gateStep.passed
  else gateStep.passed

/-- specCommand is the command dispatched for a dequeued spec: plugin
specs keep their command, jobs are forced to "run". -/
def specCommand (ts : taskSpec) (nt : botTask) : String :=
  if nt.isPlugin then ts.Command else "run"

/-- specArguments is the argument list dispatched for a dequeued spec:
plugin specs keep their arguments, jobs get none. -/
def specArguments (ts : taskSpec) (nt : botTask) : List String :=
  if nt.isPlugin then ts.Arguments else []

/-- PipeOut is the observable outcome of a run: the messages sent to
the user in order, the tasks dispatched to callTask in order (name,
command, arguments), the final result, the name of the task that was
current when the loop stopped, and whether the goroutine panicked on a
nil plugin in the admin gate (in which case nothing after the panic
point runs and the listed messages and dispatches are those that
happened before it). -/
structure PipeOut where
  sent : List String
  invoked : List (String × String × List String)
  ret : TaskRetVal
  finalName : String
  panicked : Bool := false
  deriving DecidableEq, Repr

/-- runLoop embeds the central for-loop of runPipeline: the admin gate
(evaluated against plugin0, the initial task's plugin, which the
source's shadowed re-declaration at the dequeue never updates), then
the security gate, then callTask; a result other than Normal stops the
loop (delivering the error string when interactive); otherwise the
next queued taskSpec, if any, is dequeued from the head, with plugin
specs keeping their command and arguments and jobs forced to command
"run".  Tasks appended during a call are visible at the dequeue, as in
the source where callTask grows bot.nextTasks.  A panicked gate aborts
the run on the spot.  The fuel argument only bounds the recursion and
is irrelevant whenever it exceeds the number of tasks run. -/
def runLoop (cfg : PipeConfig) (orc : TaskOracle) (plugin0 : Option botTask) :
    Nat → botTask → String → List String → List taskSpec → Bool → PipeOut
  | 0, t, _, _, _, _ =>
    { sent := [], invoked := [], ret := TaskRetVal.Normal, finalName := t.name }
  | fuel + 1, t, command, args, queue, elevated =>
    match adminGate cfg plugin0 t.isPlugin command with
    | gateStep.panicked =>
      { sent := [], invoked := [], ret := TaskRetVal.Fail, finalName := t.name,
        panicked := true }
    | gateStep.denied =>
      { sent := [adminDenialMsg], invoked := [], ret := TaskRetVal.Fail,
        finalName := t.name }
    | gateStep.passed =>
      match securityGate cfg orc t command elevated with
      | none =>
        { sent := [], invoked := [], ret := TaskRetVal.Fail, finalName := t.name }
      | some elevated =>
        let res := orc.callTask t command args
        let inv := (t.name, command, args)
        if res.2.1 ≠ TaskRetVal.Normal then
          { sent := if cfg.interactive && res.1 ≠ "" then [res.1] else []
            invoked := [inv], ret := res.2.1, finalName := t.name }
        else
          match queue ++ res.2.2 with
          | [] =>
            { sent := [], invoked := [inv], ret := TaskRetVal.Normal,
              finalName := t.name }
          | ts :: rest =>
            match ts.task with
            | none =>
              { sent := [], invoked := [inv], ret := TaskRetVal.Normal,
                finalName := t.name }
            | some nt =>
              let out := runLoop cfg orc plugin0 fuel nt (specCommand ts nt)
                  (specArguments ts nt) rest elevated
              { out with invoked := inv :: out.invoked }

/-- runPipelineModel wraps runLoop with the enclosing behaviour of
runPipeline: plugin0 is the starting task's plugin (the variable the
shadowed dequeue never updates); the verbose start announcement goes
out before the loop; the finish announcement and the job-failure
report (isJob, like plugin0, keeps the starting task's value) are sent
after the loop, hence only when the run did not panic. -/
def runPipelineModel (cfg : PipeConfig) (orc : TaskOracle) (fuel : Nat)
    (t : botTask) (ptype : pipelineType) (command : String)
    (args : List String) : PipeOut :=
  let plugin0 := if t.isPlugin then some t else none
  let isJob := !t.isPlugin
  let verbose := (isJob && t.Verbose) || ptype = pipelineType.runJob
  let out := runLoop cfg orc plugin0 fuel t command args [] false
  { out with sent :=
      (if verbose then ["start"] else []) ++ out.sent
      ++ (if !out.panicked && out.ret = TaskRetVal.Normal && verbose then
            ["finished"] else [])
      ++ (if !out.panicked && out.ret ≠ TaskRetVal.Normal && isJob then
            ["Job failed in task: " ++ out.finalName] else []) }

/- ----------------------------------------------------------------- -/
/- Run registry and run-ID allocation (registerActive, deregister)   -/
/- ----------------------------------------------------------------- -/

/-- intMax is the largest value of Go's 64-bit int. -/
def intMax : Int := 2 ^ 63 - 1

/-- intMin is the smallest value of Go's 64-bit int. -/
def intMin : Int := -(2 ^ 63)

/-- wrapInc is Go's idx++ on a 64-bit int: two's-complement increment,
wrapping from the maximum to the minimum value. -/
def wrapInc (idx : Int) : Int :=
  if idx = intMax then intMin else idx + 1

/-- nextRunID embeds the allocation step of registerActive under the
botRunID lock: increment the counter, and bump it to one when it
reaches zero (zero is reserved to mean no run).  The returned value is
both the new counter and the assigned run ID. -/
def nextRunID (idx : Int) : Int :=
  let idx := wrapInc idx
  if idx = 0 then 1 else idx

/-- ActiveRobots is the state guarded by the botRunID and activeRobots
locks: the run-ID counter (seeded at boot from rand.Int, hence any
value in [0, 2^63)) and the table of currently registered run contexts
keyed by run ID.  Contexts are identified abstractly by a numeral.  The
table keeps Go-map semantics: assigning a key overwrites it. -/
structure ActiveRobots where
  idx : Int
  active : List (Int × Nat)
  deriving DecidableEq, Repr

/-- mapAssign is Go map assignment on the active-runs table. -/
def mapAssign (m : List (Int × Nat)) (k : Int) (v : Nat) : List (Int × Nat) :=
  (k, v) :: m.filter (fun kv => kv.1 ≠ k)

/-- mapDelete is Go's delete on the active-runs table. -/
def mapDelete (m : List (Int × Nat)) (k : Int) : List (Int × Nat) :=
  m.filter (fun kv => kv.1 ≠ k)

/-- registerActive embeds the registration step: allocate the next run
ID, store it as the context's id, and insert the context into the
active-runs table under that ID. -/
def registerActive (s : ActiveRobots) (ctx : Nat) : ActiveRobots × Int :=
  let id := nextRunID s.idx
  ({ idx := id, active := mapAssign s.active id ctx }, id)

/-- deregister embeds the removal of a context from the active-runs
table by its id. -/
def deregister (s : ActiveRobots) (id : Int) : ActiveRobots :=
  { s with active := mapDelete s.active id }

/-- regOp is one serialized operation on the run registry: a context
registering, or a registered run deregistering by its id.  Because both
operations hold the registry lock, any concurrent history is some
sequence of these. -/
inductive regOp where
  | register (ctx : Nat)
  | deregister (id : Int)
  deriving DecidableEq, Repr

/-- runRegOps replays a sequence of registry operations. -/
def runRegOps (ops : List regOp) (s : ActiveRobots) : ActiveRobots :=
  ops.foldl (fun s op =>
    match op with
    | regOp.register ctx => (registerActive s ctx).1
    | regOp.deregister id => deregister s id) s

/-- regInvariant states the registry health conditions: no live run in
the table has ID zero, and no ID keys two table entries. -/
def regInvariant (s : ActiveRobots) : Prop :=
  (∀ kv ∈ s.active, kv.1 ≠ 0) ∧ (s.active.map Prod.fst).Nodup

/- ----------------------------------------------------------------- -/
/- History retention (history.go, runPipeline history block)         -/
/- ----------------------------------------------------------------- -/

/-- historyLog mirrors one remembered run: its run index and creation
timestamp. -/
structure historyLog where
  LogIndex : Int
  CreateTime : String
  deriving DecidableEq, Repr

/-- taskHistory mirrors the per-task-name record persisted in the
brain: the next run index and the retained runs. -/
structure taskHistory where
  NextIndex : Int
  Histories : List historyLog
  deriving DecidableEq, Repr

/-- rememberRuns embeds the retention count used by runPipeline: the
task's configured HistoryLogs, but at least one for jobs. -/
def rememberRuns (historyLogs : Nat) : Nat :=
  if historyLogs = 0 then 1 else historyLogs

/-- updateHistory embeds the history block of runPipeline for one run:
take the run index from NextIndex, increment NextIndex, append the new
historyLog, and when the list now exceeds the retention count drop the
oldest entries down to that count. -/
def updateHistory (remember : Nat) (createTime : String)
    (th : taskHistory) : taskHistory :=
  let runIndex := th.NextIndex
  let histories := th.Histories ++ [⟨runIndex, createTime⟩]
  let l := histories.length
  let histories := if l > remember then histories.drop (l - remember) else histories
  { NextIndex := wrapInc th.NextIndex, Histories := histories }

/-- runHistories replays m pipeline runs of one task against a fresh
taskHistory record (the zero value handed out by checkoutDatum for a
new key), the run started at index i carrying creation time (time i). -/
def runHistories (remember : Nat) (time : Nat → String) : Nat → taskHistory
  | 0 => { NextIndex := 0, Histories := [] }
  | m + 1 => updateHistory remember (time m) (runHistories remember time m)

/-- histEntry is the historyLog the engine writes for run index i. -/
def histEntry (time : Nat → String) (i : Nat) : historyLog :=
  { LogIndex := (i : Int), CreateTime := time i }

/- ----------------------------------------------------------------- -/
/- Scheduler (scheduleTasks)                                         -/
/- ----------------------------------------------------------------- -/

/-- schedLogEvent records why the scheduler skipped or accepted an
entry, mirroring the Log calls in scheduleTasks. -/
inductive schedLogEvent where
  | taskNotFound (name : String)
  | disabledSkip (name : String) (reason : String)
  | scheduledJob (name : String) (schedule : String)
  deriving DecidableEq, Repr

/-- scheduledTask mirrors the configuration entry: a cron schedule
string together with the taskSpec naming the task and its parameters. -/
structure scheduledTask where
  Schedule : String
  spec : taskSpec
  deriving DecidableEq, Repr

/-- scheduleTasks embeds the scheduling loop: resolve each entry's name
against the snapshot of the registry taken at build time; an unknown
name or a disabled task is skipped with a logged reason and never added
to the cron runner; anything else is added with its schedule.  Returns
the entries actually added (paired with their resolved task) and the
log, both in loop order. -/
def scheduleTasks (tasks : List botTask) :
    List scheduledTask → List (scheduledTask × botTask) × List schedLogEvent
  | [] => ([], [])
  | st :: rest =>
    let r := scheduleTasks tasks rest
    match getTaskByName tasks st.spec.Name with
    | none => (r.1, schedLogEvent.taskNotFound st.spec.Name :: r.2)
    | some task =>
      if task.Disabled then
        (r.1, schedLogEvent.disabledSkip st.spec.Name task.reason :: r.2)
      else
        ((st, task) :: r.1,
         schedLogEvent.scheduledJob st.spec.Name st.Schedule :: r.2)

/- ----------------------------------------------------------------- -/
/- Comparator for the FIFO property                                  -/
/- ----------------------------------------------------------------- -/

/-- specOK states that a queued spec carries its resolved task (AddTask
always populates it), that the admin gate — which reads plugin0, the
initial task's plugin — neither denies it nor panics for this run, and
that its task appends nothing further to the pipeline. -/
def specOK (cfg : PipeConfig) (orc : TaskOracle) (plugin0 : Option botTask)
    (ts : taskSpec) : Prop :=
  ∃ nt, ts.task = some nt ∧
    adminGate cfg plugin0 nt.isPlugin (specCommand ts nt) = gateStep.passed ∧
    (orc.callTask nt (specCommand ts nt) (specArguments ts nt)).2.2 = []

/-- fifoTrace is the claimed execution order, written from the spec's
words for comparison with the embedded loop: the queued specs run
strictly head first, each dispatched with its spec command, stopping
with, and including, the first task whose result is not the Normal
continue sentinel. -/
def fifoTrace (orc : TaskOracle) : List taskSpec → List (String × String × List String)
  | [] => []
  | ts :: rest =>
    match ts.task with
    | none => []
    | some nt =>
      if (orc.callTask nt (specCommand ts nt) (specArguments ts nt)).2.1
          = TaskRetVal.Normal then
        (nt.name, specCommand ts nt, specArguments ts nt) :: fifoTrace orc rest
      else
        [(nt.name, specCommand ts nt, specArguments ts nt)]

/- ----------------------------------------------------------------- -/
/- Theorems                                                          -/
/- ----------------------------------------------------------------- -/

/-- C1: the claim states that on timeout the head waiter is removed and
the next queued waiter, if any, is signalled with disposition
retryPrompt while the timed-out caller receives TimeoutExpired.  The
code instead sends the retryPrompt signal to waitlist[0], the head it
just evicted: with a queued successor (here waiter 1) the successor is
never signalled, and with a single waiter the send targets the
timed-out caller's own unbuffered channel, which no longer has a
reader, so the send blocks and the TimeoutExpired return is never
reached.  This theorem evaluates the embedded timeout branch at both
failing inputs. -/
theorem timeout_branch_signals_evicted_head :
    promptWaitTimeout (some [0, 1]) =
      { entryAfter := some [1], signalled := some 0, fallThrough := false } ∧
    promptWaitTimeout (some [7]) =
      { entryAfter := none, signalled := some 7, fallThrough := false } := by
  exact ⟨rfl, rfl⟩

/-- C5: the public prompt operations call the internal wait up to three
times while it keeps returning RetryPrompt, return the first other
outcome unchanged, and report Interrupted when even the third attempt
returns RetryPrompt; in particular RetryPrompt itself is never returned
to the caller. -/
theorem prompt_retry_cap (oracle : Nat → String × RetVal) :
    ((oracle 0).2 ≠ RetVal.RetryPrompt → promptRetryLoop oracle = oracle 0) ∧
    ((oracle 0).2 = RetVal.RetryPrompt → (oracle 1).2 ≠ RetVal.RetryPrompt →
      promptRetryLoop oracle = oracle 1) ∧
    ((oracle 0).2 = RetVal.RetryPrompt → (oracle 1).2 = RetVal.RetryPrompt →
      (oracle 2).2 ≠ RetVal.RetryPrompt → promptRetryLoop oracle = oracle 2) ∧
    ((oracle 0).2 = RetVal.RetryPrompt → (oracle 1).2 = RetVal.RetryPrompt →
      (oracle 2).2 = RetVal.RetryPrompt →
      promptRetryLoop oracle = ((oracle 2).1, RetVal.Interrupted)) ∧
    (promptRetryLoop oracle).2 ≠ RetVal.RetryPrompt := by
  unfold promptRetryLoop
  refine ⟨?_, ?_, ?_, ?_, ?_⟩ <;> simp only []
  · intro h0; simp [h0]
  · intro h0 h1; simp [h0, h1]
  · intro h0 h1 h2; simp [h0, h1, h2]
  · intro h0 h1 h2; simp [h0, h1, h2]
  · by_cases h0 : (oracle 0).2 = RetVal.RetryPrompt
    · by_cases h1 : (oracle 1).2 = RetVal.RetryPrompt
      · by_cases h2 : (oracle 2).2 = RetVal.RetryPrompt
        · simp [h0, h1, h2]
        · simp [h0, h1, h2]
      · simp [h0, h1]
    · simp [h0]

/-- C5 witness: three straight RetryPrompt outcomes are reported to the
caller as Interrupted. -/
theorem prompt_retry_cap_witness :
    promptRetryLoop (fun _ => ("", RetVal.RetryPrompt)) = ("", RetVal.Interrupted) :=
  (prompt_retry_cap (fun _ => ("", RetVal.RetryPrompt))).2.2.2.1 rfl rfl rfl

/-- C9: for a delivered reply with disposition replied, a non-matching
"=" yields UseDefaultValue, a non-matching "-" yields Interrupted, any
other non-matching text yields ReplyNotMatched, each with an empty
returned string; a matching reply returns its text with Ok regardless
of the text. -/
theorem special_reply_values (recurse : Unit → String × RetVal) (r : reply)
    (hd : r.disposition = replyDisposition.replied) :
    (r.matched = false → r.rep = "=" →
      processReply recurse r = ("", RetVal.UseDefaultValue)) ∧
    (r.matched = false → r.rep = "-" →
      processReply recurse r = ("", RetVal.Interrupted)) ∧
    (r.matched = false → r.rep ≠ "=" → r.rep ≠ "-" →
      processReply recurse r = ("", RetVal.ReplyNotMatched)) ∧
    (r.matched = true → processReply recurse r = (r.rep, RetVal.Ok)) := by
  unfold processReply
  rw [hd]
  refine ⟨?_, ?_, ?_, ?_⟩
  · intro hm he; simp [hm, he]
  · intro hm he; simp [hm, he]
  · intro hm h1 h2; simp [hm, h1, h2]
  · intro hm; simp [hm]

/-- C9 witness: a non-matching lone "=" resolves to UseDefaultValue and
a matching "y" resolves to Ok with the matched text. -/
theorem special_reply_values_witness :
    processReply (fun _ => ("", RetVal.Ok))
      { matched := false, disposition := replyDisposition.replied, rep := "=" }
      = ("", RetVal.UseDefaultValue) ∧
    processReply (fun _ => ("", RetVal.Ok))
      { matched := true, disposition := replyDisposition.replied, rep := "y" }
      = ("y", RetVal.Ok) :=
  ⟨(special_reply_values _ _ rfl).1 rfl rfl,
   (special_reply_values _ _ rfl).2.2.2 rfl⟩

/-- C10: AddTask returns TaskNotFound for an unknown name and
MissingArguments for a plugin invoked with no command or an empty
command, each leaving the pending queue unchanged; otherwise it appends
exactly one taskSpec (command "run" and no arguments for jobs,
whatever cmdargs were supplied) and returns Ok. -/
theorem addTask_spec (tasks : List botTask) (queue : List taskSpec)
    (name : String) (cmdargs : List String) :
    (getTaskByName tasks name = none →
      AddTask tasks queue name cmdargs = (RetVal.TaskNotFound, queue)) ∧
    (∀ t, getTaskByName tasks name = some t → t.isPlugin = true →
      (cmdargs = [] ∨ cmdargs.head? = some "") →
      AddTask tasks queue name cmdargs = (RetVal.MissingArguments, queue)) ∧
    (∀ t c rest, getTaskByName tasks name = some t → t.isPlugin = true →
      cmdargs = c :: rest → c ≠ "" →
      AddTask tasks queue name cmdargs =
        (RetVal.Ok, queue ++ [⟨name, c, rest, some t⟩])) ∧
    (∀ t, getTaskByName tasks name = some t → t.isPlugin = false →
      AddTask tasks queue name cmdargs =
        (RetVal.Ok, queue ++ [⟨name, "run", [], some t⟩])) := by
  refine ⟨?_, ?_, ?_, ?_⟩
  · intro h; simp [AddTask, h]
  · intro t ht hp hc
    rcases hc with hc | hc
    · simp [AddTask, ht, hp, hc]
    · match cmdargs, hc with
      | c :: rest, hc =>
        simp only [List.head?] at hc
        injection hc with hc
        simp [AddTask, ht, hp, hc]
  · intro t c rest ht hp hc hne
    subst hc
    simp [AddTask, ht, hp, hne]
  · intro t ht hp
    simp [AddTask, ht, hp]

/-- C10 witness: an unknown task name is rejected with TaskNotFound and
an unchanged queue, and a job append ignores the supplied cmdargs. -/
theorem addTask_spec_witness :
    AddTask [⟨"build", false, [], false, false, ""⟩] [] "deploy" ["x"]
      = (RetVal.TaskNotFound, []) ∧
    AddTask [⟨"build", false, [], false, false, ""⟩] [] "build" ["x"]
      = (RetVal.Ok, [⟨"build", "run", [], some ⟨"build", false, [], false, false, ""⟩⟩]) :=
  ⟨(addTask_spec _ _ _ _).1 (by decide),
   (addTask_spec _ _ _ _).2.2.2 _ (by decide) rfl⟩

/-- Helper: a layer applied in fill-the-gaps mode never changes a key
that is already bound. -/
theorem applyLayer_preserves (layer : List parameter) :
    ∀ (env : envMap) (k : String), (env k).isSome →
      applyLayer env layer k = env k := by
  induction layer with
  | nil => intro env k _; rfl
  | cons p rest ih =>
    intro env k hk
    show applyLayer (fillIfAbsent env p.Name p.Value) rest k = env k
    by_cases hpk : (env p.Name).isSome
    · rw [show fillIfAbsent env p.Name p.Value = env from if_pos hpk]
      exact ih env k hk
    · have hset : fillIfAbsent env p.Name p.Value = envSet env p.Name p.Value :=
        if_neg hpk
      rw [hset]
      have hne : k ≠ p.Name := by
        intro he; subst he; exact hpk hk
      have hv : envSet env p.Name p.Value k = env k := by
        simp [envSet, hne]
      rw [ih (envSet env p.Name p.Value) k (by rw [hv]; exact hk), hv]

/-- Helper: a layer applied in fill-the-gaps mode binds a missing key
to the value of the first parameter in the layer carrying that name. -/
theorem applyLayer_fills (layer : List parameter) :
    ∀ (env : envMap) (k : String), env k = none →
      applyLayer env layer k =
        (layer.find? (fun p => p.Name = k)).map parameter.Value := by
  induction layer with
  | nil => intro env k hk; simpa [applyLayer] using hk
  | cons p rest ih =>
    intro env k hk
    show applyLayer (fillIfAbsent env p.Name p.Value) rest k = _
    by_cases hpn : p.Name = k
    · subst hpn
      have hset : fillIfAbsent env p.Name p.Value = envSet env p.Name p.Value :=
        if_neg (by simp [hk])
      rw [hset]
      have hbound : (envSet env p.Name p.Value) p.Name = some p.Value := by
        simp [envSet]
      rw [applyLayer_preserves rest _ _ (by simp [hbound]), hbound]
      simp [List.find?]
    · have hfind : List.find? (fun q => q.Name = k) (p :: rest)
          = List.find? (fun q => q.Name = k) rest := by
        simp [List.find?, hpn]
      rw [hfind]
      have hkp : ¬k = p.Name := fun h => hpn h.symm
      by_cases hpk : (env p.Name).isSome
      · rw [show fillIfAbsent env p.Name p.Value = env from if_pos hpk]
        exact ih env k hk
      · have hset : fillIfAbsent env p.Name p.Value = envSet env p.Name p.Value :=
          if_neg hpk
        rw [hset]
        exact ih _ k (by simp [envSet, hkp, hk])

/-- C2: in the environment assembled by runPipeline, a dynamically
pre-set value is never overwritten by job fixed parameters, stored
parameters or pass-through host variables; a job fixed parameter, once
it fills a gap, is never overwritten by stored or pass-through values;
and a stored parameter, once it fills a gap, is never overwritten by a
pass-through host variable. -/
theorem environment_precedence (isJob : Bool)
    (jobParameters storedEnv : List parameter) (hostEnv : String → String)
    (env : envMap) (k : String) :
    (∀ v, env k = some v →
      pipelineEnvironment isJob jobParameters storedEnv hostEnv env k = some v) ∧
    (∀ p, env k = none → isJob = true →
      jobParameters.find? (fun q => q.Name = k) = some p →
      pipelineEnvironment isJob jobParameters storedEnv hostEnv env k = some p.Value) ∧
    (∀ p, env k = none →
      (isJob = false ∨ jobParameters.find? (fun q => q.Name = k) = none) →
      storedEnv.find? (fun q => q.Name = k) = some p →
      pipelineEnvironment isJob jobParameters storedEnv hostEnv env k = some p.Value) := by
  have final_of_layer1 :
      ∀ w, (if isJob then applyLayer env jobParameters else env) k = some w →
        pipelineEnvironment isJob jobParameters storedEnv hostEnv env k = some w := by
    intro w hw
    unfold pipelineEnvironment
    have h2 : applyLayer (if isJob then applyLayer env jobParameters else env)
        storedEnv k = some w := by
      rw [applyLayer_preserves _ _ _ (by simp [hw]), hw]
    rw [applyLayer_preserves _ _ _ (by simp [h2]), h2]
  refine ⟨?_, ?_, ?_⟩
  · intro v hv
    apply final_of_layer1
    cases isJob
    · simpa using hv
    · have h1 : applyLayer env jobParameters k = some v := by
        rw [applyLayer_preserves _ _ _ (by simp [hv]), hv]
      simpa using h1
  · intro p hk hj hfind
    subst hj
    apply final_of_layer1
    have h1 : applyLayer env jobParameters k = some p.Value := by
      rw [applyLayer_fills _ _ _ hk, hfind]; rfl
    simpa using h1
  · intro p hk hnojob hfind
    have h1 : (if isJob then applyLayer env jobParameters else env) k = none := by
      rcases hnojob with hj | hn
      · subst hj; simpa using hk
      · cases isJob
        · simpa using hk
        · have := applyLayer_fills jobParameters env k hk
          rw [hn] at this
          simpa using this
    unfold pipelineEnvironment
    have h2 : applyLayer (if isJob then applyLayer env jobParameters else env)
        storedEnv k = some p.Value := by
      rw [applyLayer_fills _ _ _ h1, hfind]; rfl
    rw [applyLayer_preserves _ _ _ (by simp [h2]), h2]

/-- C2 witness: a dynamically pre-set greeting wins over a job
parameter of the same name, and a stored PATH wins over the
pass-through host PATH. -/
theorem environment_precedence_witness :
    pipelineEnvironment true [⟨"greeting", "job"⟩] [] (fun _ => "host")
      (envSet (fun _ => none) "greeting" "dyn") "greeting" = some "dyn" ∧
    pipelineEnvironment false [] [⟨"PATH", "stored"⟩] (fun _ => "host")
      (fun _ => none) "PATH" = some "stored" :=
  ⟨(environment_precedence true [⟨"greeting", "job"⟩] [] (fun _ => "host")
      (envSet (fun _ => none) "greeting" "dyn") "greeting").1 "dyn" (by simp [envSet]),
   (environment_precedence false [] [⟨"PATH", "stored"⟩] (fun _ => "host")
      (fun _ => none) "PATH").2.2 ⟨"PATH", "stored"⟩ rfl (Or.inl rfl) (by simp [List.find?])⟩

/-- Helper: every entry the scheduler actually installs resolves, in
the registry snapshot, to an enabled task. -/
theorem scheduleTasks_added_sound (tasks : List botTask) :
    ∀ (scheduled : List scheduledTask),
      ∀ p ∈ (scheduleTasks tasks scheduled).1,
        getTaskByName tasks p.1.spec.Name = some p.2 ∧ p.2.Disabled = false := by
  intro scheduled
  induction scheduled with
  | nil => intro p hp; simp [scheduleTasks] at hp
  | cons st rest ih =>
    intro p hp
    simp only [scheduleTasks] at hp
    split at hp
    · exact ih p hp
    · rename_i task heq
      split at hp
      · exact ih p hp
      · rename_i hd
        rcases List.mem_cons.mp hp with rfl | hp'
        · exact ⟨heq, by simpa using hd⟩
        · exact ih p hp'

/-- Helper: an entry whose name does not resolve in the snapshot is
logged as not found. -/
theorem scheduleTasks_log_notFound (tasks : List botTask) :
    ∀ (scheduled : List scheduledTask), ∀ st ∈ scheduled,
      getTaskByName tasks st.spec.Name = none →
      schedLogEvent.taskNotFound st.spec.Name ∈ (scheduleTasks tasks scheduled).2 := by
  intro scheduled
  induction scheduled with
  | nil => intro st hst; simp at hst
  | cons st0 rest ih =>
    intro st hst hnone
    simp only [scheduleTasks]
    rcases List.mem_cons.mp hst with rfl | hst'
    · rw [hnone]
      exact List.mem_cons_self _ _
    · split
      · exact List.mem_cons_of_mem _ (ih st hst' hnone)
      · split
        · exact List.mem_cons_of_mem _ (ih st hst' hnone)
        · exact List.mem_cons_of_mem _ (ih st hst' hnone)

/-- Helper: an entry that resolves to a disabled task is logged as
skipped with the task's disable reason. -/
theorem scheduleTasks_log_disabled (tasks : List botTask) :
    ∀ (scheduled : List scheduledTask), ∀ st ∈ scheduled, ∀ t,
      getTaskByName tasks st.spec.Name = some t → t.Disabled = true →
      schedLogEvent.disabledSkip st.spec.Name t.reason
        ∈ (scheduleTasks tasks scheduled).2 := by
  intro scheduled
  induction scheduled with
  | nil => intro st hst; simp at hst
  | cons st0 rest ih =>
    intro st hst t hsome hdis
    simp only [scheduleTasks]
    rcases List.mem_cons.mp hst with rfl | hst'
    · simp [hsome, hdis]
    · split
      · exact List.mem_cons_of_mem _ (ih st hst' t hsome hdis)
      · split
        · exact List.mem_cons_of_mem _ (ih st hst' t hsome hdis)
        · exact List.mem_cons_of_mem _ (ih st hst' t hsome hdis)

/-- C8: when the scheduler rebuilds, every entry whose name does not
resolve in the registry snapshot, or whose task is disabled, is skipped
with a logged reason and never installed in the cron schedule; no entry
carrying the name of a disabled task is ever scheduled, so disabling a
task referenced by two entries skips both. -/
theorem scheduler_skips_missing_and_disabled (tasks : List botTask)
    (scheduled : List scheduledTask) :
    (∀ p ∈ (scheduleTasks tasks scheduled).1,
      getTaskByName tasks p.1.spec.Name = some p.2 ∧ p.2.Disabled = false) ∧
    (∀ st ∈ scheduled, getTaskByName tasks st.spec.Name = none →
      schedLogEvent.taskNotFound st.spec.Name ∈ (scheduleTasks tasks scheduled).2) ∧
    (∀ st ∈ scheduled, ∀ t, getTaskByName tasks st.spec.Name = some t →
      t.Disabled = true →
      schedLogEvent.disabledSkip st.spec.Name t.reason
        ∈ (scheduleTasks tasks scheduled).2) ∧
    (∀ st ∈ scheduled, ∀ t, getTaskByName tasks st.spec.Name = some t →
      t.Disabled = true →
      ∀ p ∈ (scheduleTasks tasks scheduled).1, p.1.spec.Name ≠ st.spec.Name) := by
  refine ⟨scheduleTasks_added_sound tasks scheduled,
    scheduleTasks_log_notFound tasks scheduled,
    scheduleTasks_log_disabled tasks scheduled, ?_⟩
  intro st _ t hsome hdis p hp hname
  have hsound := scheduleTasks_added_sound tasks scheduled p hp
  rw [hname, hsome] at hsound
  have ht : t = p.2 := by injection hsound.1
  rw [← ht, hdis] at hsound
  exact Bool.noConfusion hsound.2

/-- C8 witness: two entries with different schedules referencing the
same disabled task are both skipped with the logged reason, and
nothing is scheduled for that name. -/
theorem scheduler_skips_witness :
    (schedLogEvent.disabledSkip "backup" "maintenance"
      ∈ (scheduleTasks [⟨"backup", false, [], false, true, "maintenance"⟩]
          [⟨"@daily", ⟨"backup", "run", [], none⟩⟩,
           ⟨"@weekly", ⟨"backup", "run", [], none⟩⟩]).2) ∧
    (∀ p ∈ (scheduleTasks [⟨"backup", false, [], false, true, "maintenance"⟩]
          [⟨"@daily", ⟨"backup", "run", [], none⟩⟩,
           ⟨"@weekly", ⟨"backup", "run", [], none⟩⟩]).1,
      p.1.spec.Name ≠ "backup") := by
  constructor
  · exact (scheduler_skips_missing_and_disabled _ _).2.2.1
      ⟨"@daily", ⟨"backup", "run", [], none⟩⟩ (by simp)
      ⟨"backup", false, [], false, true, "maintenance"⟩ (by simp [getTaskByName]) rfl
  · exact (scheduler_skips_missing_and_disabled _ _).2.2.2
      ⟨"@daily", ⟨"backup", "run", [], none⟩⟩ (by simp)
      ⟨"backup", false, [], false, true, "maintenance"⟩ (by simp [getTaskByName]) rfl

/-- C4 counterexample: run-ID allocation is not monotonically
increasing.  The counter is seeded from rand.Int, which can return any
value in [0, 2^63); seeded at 2^63 - 2, the first registration assigns
ID 2^63 - 1 and the second wraps the 64-bit counter and assigns the
smaller (negative) ID -2^63, which the zero-bump guard does not
correct. -/
theorem runID_overflow_counterexample :
    (0 : Int) ≤ 2 ^ 63 - 2 ∧ (2 ^ 63 - 2 : Int) < 2 ^ 63 ∧
    (registerActive ⟨2 ^ 63 - 2, []⟩ 1).2 = intMax ∧
    (registerActive (registerActive ⟨2 ^ 63 - 2, []⟩ 1).1 2).2 = intMin ∧
    intMin < intMax := by
  refine ⟨by norm_num, by norm_num, ?_, ?_, by norm_num [intMin, intMax]⟩
  · show nextRunID (2 ^ 63 - 2) = intMax
    norm_num [nextRunID, wrapInc, intMax, intMin]
  · show nextRunID (nextRunID (2 ^ 63 - 2)) = intMin
    norm_num [nextRunID, wrapInc, intMax, intMin]

/-- Helper: the allocation step never hands out zero. -/
theorem nextRunID_ne_zero (idx : Int) : nextRunID idx ≠ 0 := by
  unfold nextRunID
  by_cases h : wrapInc idx = 0
  · simp [h]
  · simp [h]

/-- Helper: registering preserves the registry invariant. -/
theorem regInvariant_register (s : ActiveRobots) (ctx : Nat)
    (h : regInvariant s) : regInvariant (registerActive s ctx).1 := by
  obtain ⟨hz, hnd⟩ := h
  constructor
  · intro kv hkv
    rcases List.mem_cons.mp hkv with rfl | hkv'
    · exact nextRunID_ne_zero s.idx
    · exact hz kv (List.mem_of_mem_filter hkv')
  · show (((nextRunID s.idx, ctx) ::
        s.active.filter (fun kv => kv.1 ≠ nextRunID s.idx)).map Prod.fst).Nodup
    rw [List.map_cons]
    refine List.nodup_cons.mpr ⟨?_, ?_⟩
    · intro hmem
      rcases List.mem_map.mp hmem with ⟨kv, hkv, hfst⟩
      have := List.of_mem_filter hkv
      rw [hfst] at this
      simp at this
    · exact List.Nodup.sublist (List.Sublist.map Prod.fst (List.filter_sublist _)) hnd

/-- Helper: deregistering preserves the registry invariant. -/
theorem regInvariant_deregister (s : ActiveRobots) (id : Int)
    (h : regInvariant s) : regInvariant (deregister s id) := by
  obtain ⟨hz, hnd⟩ := h
  constructor
  · intro kv hkv
    exact hz kv (List.mem_of_mem_filter hkv)
  · exact List.Nodup.sublist (List.Sublist.map Prod.fst (List.filter_sublist _)) hnd

/-- Helper: the registry invariant holds along any serialized sequence
of register and deregister operations from a boot state. -/
theorem regInvariant_runRegOps (ops : List regOp) :
    ∀ (s : ActiveRobots), regInvariant s → regInvariant (runRegOps ops s) := by
  induction ops with
  | nil => intro s h; exact h
  | cons op rest ih =>
    intro s h
    cases op with
    | register ctx => exact ih _ (regInvariant_register s ctx h)
    | deregister id => exact ih _ (regInvariant_deregister s id h)

/-- C4 (amended): run IDs are always non-zero; the counter is bumped to
one when the increment lands on zero; allocation is strictly increasing
except at the single point where the 64-bit counter overflows from its
maximum value; and along any serialized sequence of registrations and
deregistrations the active-runs table never holds a zero ID and never
holds two entries with the same ID. -/
theorem runID_allocation (idx0 : Int) :
    (∀ idx : Int, nextRunID idx ≠ 0) ∧
    nextRunID (-1) = 1 ∧
    (∀ idx : Int, idx ≠ intMax → nextRunID idx > idx) ∧
    (∀ ops : List regOp, regInvariant (runRegOps ops ⟨idx0, []⟩)) := by
  refine ⟨nextRunID_ne_zero, ?_, ?_, ?_⟩
  · norm_num [nextRunID, wrapInc, intMax, intMin]
  · intro idx hne
    unfold nextRunID wrapInc
    rw [if_neg hne]
    by_cases h0 : idx + 1 = 0
    · have : idx = -1 := by omega
      rw [if_pos h0, this]
      norm_num
    · rw [if_neg h0]
      omega
  · intro ops
    exact regInvariant_runRegOps ops _ ⟨by intro kv h; simp at h, by simp⟩

/-- C4 witness: instantiating the non-overflow monotonicity clause at
counter zero, the next run ID 1 is strictly larger. -/
theorem runID_allocation_witness :
    (0 : Int) ≠ intMax ∧ nextRunID 0 > 0 :=
  ⟨by norm_num [intMax], (runID_allocation 0).2.2.1 0 (by norm_num [intMax])⟩

/-- C6: a plugin command listed in AdminCommands, invoked by a user who
is not a configured administrator, makes the pipeline send exactly one
denial reply and stop with result Fail, without ever dispatching the
task handler. -/
theorem admin_denied_fail (cfg : PipeConfig) (orc : TaskOracle) (fuel : Nat)
    (t : botTask) (ptype : pipelineType) (command : String) (args : List String)
    (hplug : t.isPlugin = true)
    (hcmd : t.AdminCommands.contains command = true)
    (huser : cfg.adminUsers.contains cfg.user = false)
    (hfuel : 0 < fuel)
    (hpt : ptype ≠ pipelineType.runJob) :
    runPipelineModel cfg orc fuel t ptype command args =
      { sent := [adminDenialMsg], invoked := [], ret := TaskRetVal.Fail,
        finalName := t.name } := by
  obtain ⟨f, rfl⟩ : ∃ f, fuel = f + 1 := ⟨fuel - 1, by omega⟩
  have hne : t.AdminCommands.isEmpty = false := by
    cases h : t.AdminCommands with
    | nil => rw [h] at hcmd; simp [List.contains] at hcmd
    | cons a l => rfl
  have hmem : command ∈ t.AdminCommands := by simpa using hcmd
  have hnmem : cfg.user ∉ cfg.adminUsers := by simpa using huser
  have hgate : adminGate cfg (if t.isPlugin then some t else none) t.isPlugin
      command = gateStep.denied := by
    simp [adminGate, hplug, hne, hcmd, checkAdmin, huser, hmem, hnmem]
  unfold runPipelineModel runLoop
  dsimp only
  rw [hgate]
  simp [hplug, hpt]

/-- C6 witness: the delete command of a plugin restricted by
AdminCommands, invoked by bob who is not among the administrators,
draws the single denial reply and Fail, with no task dispatched. -/
theorem admin_denied_fail_witness :
    runPipelineModel ⟨["alice"], "bob", true, false⟩
      ⟨fun _ _ _ => ("", TaskRetVal.Normal, []),
       fun _ _ => TaskRetVal.Success, fun _ _ => (TaskRetVal.Success, false)⟩
      1 ⟨"admin", true, ["delete"], false, false, ""⟩
      pipelineType.plugCommand "delete" [] =
      { sent := [adminDenialMsg], invoked := [], ret := TaskRetVal.Fail,
        finalName := "admin" } :=
  admin_denied_fail _ _ 1 _ _ _ [] rfl (by decide) (by decide) (by decide)
    (by decide)

/-- Helper: with security bypassed and every queued spec resolved,
passed by the admin gate (which reads the initial task's plugin) and
appending nothing, dispatching the dequeued head of the pending queue
produces exactly the FIFO trace of the queue. -/
theorem runLoop_fifo (cfg : PipeConfig) (orc : TaskOracle)
    (plugin0 : Option botTask) (hbp : cfg.bypassSecurityChecks = true) :
    ∀ (A : List taskSpec) (fuel : Nat) (elev : Bool),
      A.length ≤ fuel → (∀ ts ∈ A, specOK cfg orc plugin0 ts) →
      ∀ ts rest, A = ts :: rest → ∀ nt, ts.task = some nt →
        (runLoop cfg orc plugin0 fuel nt (specCommand ts nt)
          (specArguments ts nt) rest elev).invoked = fifoTrace orc A := by
  intro A
  induction A with
  | nil =>
    intro fuel elev _ _ ts rest h
    exact absurd h (by simp)
  | cons ts0 rest0 ih =>
    intro fuel elev hlen hok ts rest heq nt hnt
    obtain ⟨rfl, rfl⟩ : ts0 = ts ∧ rest0 = rest := by
      injection heq with h1 h2; exact ⟨h1, h2⟩
    have hlen1 : rest0.length + 1 ≤ fuel := by simpa using hlen
    obtain ⟨f, rfl⟩ : ∃ f, fuel = f + 1 := ⟨fuel - 1, by omega⟩
    have hlenf : rest0.length ≤ f := by omega
    obtain ⟨nt0, hnt0, hgate, hnoadd⟩ := hok ts0 (List.mem_cons_self _ _)
    rw [hnt] at hnt0
    injection hnt0 with hnteq
    subst hnteq
    have hsg : securityGate cfg orc nt (specCommand ts0 nt) elev = some elev := by
      simp [securityGate, hbp]
    by_cases hret : (orc.callTask nt (specCommand ts0 nt) (specArguments ts0 nt)).2.1
        = TaskRetVal.Normal
    · cases rest0 with
      | nil =>
        simp only [runLoop]
        rw [hgate]
        simp [hsg, hret, hnoadd, fifoTrace, hnt]
      | cons ts1 rest1 =>
        obtain ⟨nt1, hnt1, _, _⟩ := hok ts1 (by simp)
        have ihres := ih f elev hlenf
          (fun u hu => hok u (List.mem_cons_of_mem _ hu)) ts1 rest1 rfl nt1 hnt1
        simp only [runLoop]
        rw [hgate]
        simp [hsg, hret, hnoadd, fifoTrace, hnt, hnt1, ihres]
    · simp only [runLoop]
      rw [hgate]
      simp [hsg, hret, fifoTrace, hnt]

/-- C3: for a pipeline run with security bypassed whose admin gate —
which always reads the initial task's plugin, the source's dequeue
shadowing its plugin variable — passes the initial command and every
queued spec without denying or panicking, the initial task is
dispatched first; if its result is not the Normal continue sentinel no
queued task runs at all, and otherwise the taskSpecs it appended with
AddTask run strictly FIFO from the head of the pending queue, halting
with, and including, the first task whose result is not Normal, which
is never retried. -/
theorem pipeline_fifo_halt (cfg : PipeConfig) (orc : TaskOracle) (fuel : Nat)
    (t : botTask) (ptype : pipelineType) (command : String) (args : List String)
    (hbp : cfg.bypassSecurityChecks = true)
    (hgate : adminGate cfg (if t.isPlugin then some t else none) t.isPlugin
      command = gateStep.passed)
    (hA : ∀ ts ∈ (orc.callTask t command args).2.2,
      specOK cfg orc (if t.isPlugin then some t else none) ts)
    (hfuel : (orc.callTask t command args).2.2.length < fuel) :
    (runPipelineModel cfg orc fuel t ptype command args).invoked
      = (t.name, command, args) ::
        (if (orc.callTask t command args).2.1 = TaskRetVal.Normal
         then fifoTrace orc (orc.callTask t command args).2.2 else []) := by
  obtain ⟨f, rfl⟩ : ∃ f, fuel = f + 1 := ⟨fuel - 1, by omega⟩
  have hlenf : (orc.callTask t command args).2.2.length ≤ f := by omega
  have hsg : securityGate cfg orc t command false = some false := by
    simp [securityGate, hbp]
  have hinv : (runPipelineModel cfg orc (f + 1) t ptype command args).invoked
      = (runLoop cfg orc (if t.isPlugin then some t else none) (f + 1) t
          command args [] false).invoked := by
    simp [runPipelineModel]
  rw [hinv]
  by_cases hret : (orc.callTask t command args).2.1 = TaskRetVal.Normal
  · cases hq : (orc.callTask t command args).2.2 with
    | nil =>
      simp only [runLoop]
      rw [hgate]
      simp [hsg, hret, hq, fifoTrace]
    | cons ts1 rest1 =>
      obtain ⟨nt1, hnt1, _, _⟩ := hA ts1 (by rw [hq]; simp)
      have ihres := runLoop_fifo cfg orc (if t.isPlugin then some t else none)
        hbp ((orc.callTask t command args).2.2) f false hlenf hA ts1 rest1 hq
        nt1 hnt1
      rw [hq] at ihres
      simp only [runLoop]
      rw [hgate]
      simp [hsg, hret, hq, hnt1, ihres]
  · simp only [runLoop]
    rw [hgate]
    simp [hsg, hret]

/-- C3 witness: job a appends jobs b, c and d with AddTask; c fails, so
the run dispatches exactly a, then b, then c in queue order and never
reaches d. -/
theorem pipeline_fifo_halt_witness :
    (runPipelineModel ⟨[], "u", false, true⟩
        ⟨fun tk _ _ =>
            if tk.name = "a" then
              ("", TaskRetVal.Normal,
                [⟨"b", "run", [], some ⟨"b", false, [], false, false, ""⟩⟩,
                 ⟨"c", "run", [], some ⟨"c", false, [], false, false, ""⟩⟩,
                 ⟨"d", "run", [], some ⟨"d", false, [], false, false, ""⟩⟩])
            else if tk.name = "c" then ("", TaskRetVal.Fail, [])
            else ("", TaskRetVal.Normal, []),
          fun _ _ => TaskRetVal.Success,
          fun _ _ => (TaskRetVal.Success, false)⟩
        4 ⟨"a", false, [], false, false, ""⟩ pipelineType.jobTrigger
        "run" []).invoked
      = [("a", "run", []), ("b", "run", []), ("c", "run", [])] := by
  rw [pipeline_fifo_halt _ _ 4 _ pipelineType.jobTrigger "run" [] rfl (by decide)
    (by
      intro ts hts
      have hts' : ts ∈
          [(⟨"b", "run", [], some ⟨"b", false, [], false, false, ""⟩⟩ : taskSpec),
           ⟨"c", "run", [], some ⟨"c", false, [], false, false, ""⟩⟩,
           ⟨"d", "run", [], some ⟨"d", false, [], false, false, ""⟩⟩] := hts
      simp only [List.mem_cons, List.not_mem_nil, or_false] at hts'
      rcases hts' with rfl | rfl | rfl
      · exact ⟨⟨"b", false, [], false, false, ""⟩, rfl, by decide, by decide⟩
      · exact ⟨⟨"c", false, [], false, false, ""⟩, rfl, by decide, by decide⟩
      · exact ⟨⟨"d", false, [], false, false, ""⟩, rfl, by decide, by decide⟩)
    (by decide)]
  rfl

/-- Helper: after m runs with retention K the record holds NextIndex m
and exactly the newest entries, all runs before index m - K evicted. -/
theorem runHistories_spec (K : Nat) (time : Nat → String) :
    ∀ m : Nat, (m : Int) ≤ intMax →
      (runHistories K time m).NextIndex = (m : Int) ∧
      (runHistories K time m).Histories
        = ((List.range m).map (histEntry time)).drop (m - K) := by
  intro m
  induction m with
  | zero =>
    intro _
    exact ⟨rfl, by simp [runHistories]⟩
  | succ m ih =>
    intro hm
    have hmlt : (m : Int) < intMax := by push_cast at hm ⊢; omega
    obtain ⟨hNI, hH⟩ := ih (le_of_lt hmlt)
    have hwrap : wrapInc ((m : Nat) : Int) = (m : Int) + 1 := by
      unfold wrapInc
      rw [if_neg (by omega)]
    refine ⟨?_, ?_⟩
    · show (updateHistory K (time m) (runHistories K time m)).NextIndex = _
      unfold updateHistory
      simp only [hNI, hwrap]
      push_cast
      ring
    · show (updateHistory K (time m) (runHistories K time m)).Histories = _
      unfold updateHistory
      simp only [hH, hNI]
      have hentry : ({ LogIndex := ((m : Nat) : Int), CreateTime := time m }
          : historyLog) = histEntry time m := rfl
      rw [hentry]
      have hdl : (((List.range m).map (histEntry time)).drop (m - K)).length
          = m - (m - K) := by simp
      have happ : ((List.range m).map (histEntry time)).drop (m - K)
            ++ [histEntry time m]
          = (((List.range m).map (histEntry time)) ++ [histEntry time m]).drop
              (m - K) :=
        (List.drop_append_of_le_length (by simp)).symm
      have hrange : (List.range (m + 1)).map (histEntry time)
          = ((List.range m).map (histEntry time)) ++ [histEntry time m] := by
        rw [List.range_succ, List.map_append]
        rfl
      by_cases hcase : m - (m - K) + 1 > K
      · rw [if_pos (by rw [List.length_append, hdl]; simpa using hcase)]
        rw [List.length_append, hdl]
        rw [happ, List.drop_drop, ← hrange]
        congr 1
        simp only [List.length_singleton]
        omega
      · rw [if_neg (by rw [List.length_append, hdl]; simpa using hcase)]
        rw [happ, ← hrange]
        congr 1
        omega

/-- C7: after M runs of a task retaining K histories, with 0 < K < M,
the persisted record holds exactly K historyLog entries, they are the K
most recent by run index (indices M-K through M-1, oldest evicted
first), and NextIndex has advanced by one per run, to M. -/
theorem history_retention (K M : Nat) (time : Nat → String)
    (hK : 0 < K) (hKM : K < M) (hM : (M : Int) ≤ intMax) :
    (runHistories K time M).NextIndex = (M : Int) ∧
    (runHistories K time M).Histories.length = K ∧
    (runHistories K time M).Histories
      = ((List.range M).map (histEntry time)).drop (M - K) := by
  obtain ⟨h1, h2⟩ := runHistories_spec K time M hM
  refine ⟨h1, ?_, h2⟩
  rw [h2]
  simp only [List.length_drop, List.length_map, List.length_range]
  omega

/-- C7 witness: five runs with retention two leave NextIndex five and
exactly the two newest entries, indices 3 and 4. -/
theorem history_retention_witness :
    (runHistories 2 (fun _ => "t") 5).NextIndex = ((5 : Nat) : Int) ∧
    (runHistories 2 (fun _ => "t") 5).Histories.length = 2 ∧
    (runHistories 2 (fun _ => "t") 5).Histories
      = ((List.range 5).map (histEntry (fun _ => "t"))).drop 3 :=
  history_retention 2 5 (fun _ => "t") (by decide) (by decide)
    (by norm_num [intMax])

end Gopherbot
